import Mathlib

/-!
Shallow embedding of the offline-first book cache and synchronization engine
of this repository: the Record Store and Blob Cache primitives of
`src/lib/services/localStorageService.ts` (class `LocalStorageService`) and
the Reconciler of `src/lib/services/coverService.ts` (class `BookService`),
translated operation by operation from the TypeScript source.

Conventions of the embedding:
* SQL NULL / JS `null` / JS `undefined` on nullable columns are `Option`;
  a non-nullable string column is `String` (the empty string plays the role
  of a falsy value where the source tests JS truthiness).
* The SQLite table of `books` is a `List LocalBook`; `INSERT OR REPLACE`
  deletes the conflicting primary-key row and appends the new one.
* The Capacitor Filesystem under `Directory.Data` (the Blob Cache) is an
  association list from path to the stored base64 string.
* Asynchronous methods that can reject are `Except`-valued; state is passed
  explicitly through a `World`.
* Ambient browser facts (`Date.now()`, `Date.prototype.toISOString`,
  `navigator.onLine`, `fetch`, the Supabase client responses) are an `Env`
  record of oracles, fixed for the duration of one operation.
* `World.writeLog` is pure instrumentation: every successful Blob Cache
  write performed by the per-book asset-population step of
  `processSupabaseBooks` is also logged as (book id, file type), so that
  theorems can speak about which writes a reconciliation pass performed.
-/

/-- Remote catalog row shape: interface `SupabaseBook` of
`src/lib/services/coverService.ts`. Numeric columns are `Int`
(`current_page`, `total_pages` INTEGER; `read_progress`, `audio_progress`
REAL, used only at integral values by the engine); `vocab_mastery` is an
untyped JSON value, kept abstract as its serialized text. -/
structure SupabaseBook where
  id : String
  title : String
  author : String
  content_url : String
  cover_image : String
  narration_url : Option String
  podcast_url : Option String
  content_category : String
  current_page : Int
  total_pages : Int
  last_read : Option String
  narration_status : Option String
  podcast_status : Option String
  highlighted_words : List String
  difficult_words : List String
  vocab_mastery : Option String
  read_progress : Int
  audio_progress : Option Int
  book_language : String
  is_favorite : Bool
  is_offline : Bool
  synced_with_supabase : Bool
  is_crafted : Bool
  created_at : String
  updated_at : String
  deriving Repr, DecidableEq

/-- Local record shape: interface `LocalBook extends SupabaseBook` of
`src/lib/services/localStorageService.ts`, adding the manual flag, the
cache expiry timestamp (an ISO string; empty plays the falsy role of an
absent value) and the three nullable local asset paths. -/
structure LocalBook extends SupabaseBook where
  is_manual : Bool
  cache_expiry : String
  local_content_path : Option String
  local_narration_path : Option String
  local_podcast_path : Option String
  deriving Repr, DecidableEq

/-- JS truthiness of a nullable string: `null`, `undefined` and the empty
string are falsy, every other string truthy. -/
def jsTruthy : Option String → Bool
  | none => false
  | some s => s ≠ ""

/-- The JS expression `x || null` on a nullable string: a falsy value
(absent or empty) collapses to `null`, a truthy string is kept. Used by
`processSupabaseBooks` on `localBook?.local_*_path || null`. -/
def jsOrNull : Option String → Option String
  | none => none
  | some s => if s = "" then none else some s

/-- Mutable state threaded through the engine: whether
`initializeStorage` managed to set the `sqlite` field (a null engine makes
every `this.sqlite?.` call a silent no-op), the `books` table, the
Blob Cache (path to stored base64 data), the instrumentation log of
asset-population writes, and the list of remote progress updates that
reached Supabase. -/
structure World where
  sqliteInit : Bool
  books : List LocalBook
  blobCache : List (String × String)
  writeLog : List (String × String)
  remoteUpdates : List (String × Int)
  deriving Repr, DecidableEq

/-- Ambient oracles for one operation: `Date.now()` in milliseconds, the
library conversion of a millisecond clock value to its ISO-8601 string,
`navigator.onLine`, the byte payload `fetch` yields per URL (`none` is a
network failure, i.e. a rejected fetch), the Supabase `select` response
for the books table, and whether a Supabase progress `update` reports an
error. -/
structure Env where
  nowMs : Nat
  isoOfMs : Nat → String
  online : Bool
  fetchBytes : String → Option (List Nat)
  remoteBooks : Except Unit (List SupabaseBook)
  remoteUpdateError : Bool

/-- CACHE_DURATION of `BookService`: 7 days in milliseconds. -/
def CACHE_DURATION : Nat := 7 * 24 * 60 * 60 * 1000

/-- Row set returned by `SELECT * FROM books WHERE id = ?` followed by the
`books.length > 0 ? books[0] : null` step of `getBook`: the first row of
the table carrying that primary key. -/
def findRow (books : List LocalBook) (id : String) : Option LocalBook :=
  books.find? (fun b => b.id = id)

/-- `INSERT OR REPLACE INTO books`: the conflicting primary-key row (if
any) is removed and the new row inserted. -/
def upsertRow (books : List LocalBook) (b : LocalBook) : List LocalBook :=
  books.filter (fun x => x.id ≠ b.id) ++ [b]

/-- `LocalStorageService.saveBook`: runs the INSERT OR REPLACE statement
through `this.sqlite?.run` — a silent no-op when the engine was never
initialized. (The JSON serialization of the list/object columns performed
by `saveBook` is inverted field-for-field by `transformQueryResult` on
read, so rows are modelled as the records themselves.) -/
def saveBook (w : World) (b : LocalBook) : World :=
  if w.sqliteInit then { w with books := upsertRow w.books b } else w

/-- Result of `this.sqlite?.execute('SELECT * FROM books')`: `none` stands
for the `undefined` produced by optional chaining on a null engine. -/
def sqliteSelectAll (w : World) : Option (List LocalBook) :=
  if w.sqliteInit then some w.books else none

/-- `LocalStorageService.transformQueryResult`: a missing (`undefined`)
or empty result yields `[]`; otherwise the rows are mapped back to
`LocalBook` records (JSON columns parsed, 0/1 columns turned to Bool —
the inverse of the serialization in `saveBook`). -/
def transformQueryResult : Option (List LocalBook) → List LocalBook
  | none => []
  | some rows => rows

/-- `LocalStorageService.getBooks`: SELECT all rows, transform; the only
rejection path is the storage engine itself throwing, which the engine
model never does (a null engine is silently skipped by `?.`), so the
returned promise always resolves. -/
def getBooks (w : World) : Except Unit (List LocalBook) :=
  .ok (transformQueryResult (sqliteSelectAll w))

/-- `LocalStorageService.getBook`: point lookup through
`this.sqlite?.execute(... WHERE id = ?)`; `null` (here `none`) both when
the row set is empty and when the engine is uninitialized. -/
def getBook (w : World) (id : String) : Option LocalBook :=
  match sqliteSelectAll w with
  | none => none
  | some rows => findRow rows id

/-- `Filesystem.deleteFile` on the Blob Cache: removes the entry at the
path; the per-file try/catch of `deleteBookFiles` swallows a missing-file
error, so this is total. -/
def deleteFile (cache : List (String × String)) (path : String) :
    List (String × String) :=
  cache.filter (fun e => e.1 ≠ path)

/-- `LocalStorageService.deleteBookFiles`: the three local asset paths,
filtered by `path !== null`, each deleted from the Blob Cache. -/
def deleteBookFiles (cache : List (String × String)) (b : LocalBook) :
    List (String × String) :=
  let paths := [b.local_content_path, b.local_narration_path,
    b.local_podcast_path].filterMap id
  paths.foldl deleteFile cache

/-- `LocalStorageService.deleteBook`, statement for statement: first the
`DELETE FROM books WHERE id = ?` is run, then `getBook(id)` is awaited on
the already-deleted table, and only a found record has its files deleted
via `deleteBookFiles`. -/
def deleteBook (w : World) (id : String) : World :=
  let w1 : World :=
    if w.sqliteInit then { w with books := w.books.filter (fun b => b.id ≠ id) }
    else w
  match getBook w1 id with
  | none => w1
  | some book => { w1 with blobCache := deleteBookFiles w1.blobCache book }

/-- Error alphabet of `BookService.removeBook`: the `throw new
Error('Cannot remove non-manual books')` permission rejection. A missing
record is not an error (the method logs and returns normally). -/
inductive RemoveError where
  | cannotRemoveNonManual
  deriving Repr, DecidableEq

/-- `BookService.removeBook`: look the record up; a missing record is a
silent successful return; a non-manual record throws the permission error
(rethrown by the outer catch) before any state is touched; a manual
record is handed to `LocalStorageService.deleteBook`. -/
def removeBook (w : World) (id : String) : Except RemoveError Unit × World :=
  match getBook w id with
  | none => (.ok (), w)
  | some book =>
    if book.is_manual then (.ok (), deleteBook w id)
    else (.error .cannotRemoveNonManual, w)

/-- Alphabet of standard base64 (the encoding `FileReader.readAsDataURL`
produces and the `data:` URL decoder consumes). -/
def b64Alphabet : List Char :=
  ['A','B','C','D','E','F','G','H','I','J','K','L','M','N','O','P',
   'Q','R','S','T','U','V','W','X','Y','Z',
   'a','b','c','d','e','f','g','h','i','j','k','l','m','n','o','p',
   'q','r','s','t','u','v','w','x','y','z',
   '0','1','2','3','4','5','6','7','8','9','+','/']

/-- Character for a 6-bit group. -/
def encodeSextet (n : Nat) : Char := b64Alphabet.getD n '='

/-- 6-bit group of an alphabet character (the alphabet length, 64, for a
character outside the alphabet). -/
def decodeChar (c : Char) : Nat := b64Alphabet.indexOf c

/-- Standard base64 of a byte sequence, three bytes to four characters,
with `=` padding on a trailing group of one or two bytes: the encoding of
the Blob contents that `readAsDataURL` hands to `cacheFile`. -/
def encodeB64 : List Nat → List Char
  | [] => []
  | [a] =>
    [encodeSextet (a / 4), encodeSextet (a % 4 * 16), '=', '=']
  | [a, b] =>
    [encodeSextet (a / 4), encodeSextet (a % 4 * 16 + b / 16),
     encodeSextet (b % 16 * 4), '=']
  | a :: b :: c :: rest =>
    encodeSextet (a / 4) :: encodeSextet (a % 4 * 16 + b / 16) ::
    encodeSextet (b % 16 * 4 + c / 64) :: encodeSextet (c % 64) ::
    encodeB64 rest

/-- Reassembly of bytes from 6-bit groups, four groups to three bytes,
a trailing group of three or two sextets yielding two or one bytes. -/
def decodeSextets : List Nat → List Nat
  | s0 :: s1 :: s2 :: s3 :: rest =>
    (s0 * 4 + s1 / 16) :: (s1 % 16 * 16 + s2 / 4) :: (s2 % 4 * 64 + s3) ::
    decodeSextets rest
  | [s0, s1, s2] => [s0 * 4 + s1 / 16, s1 % 16 * 16 + s2 / 4]
  | [s0, s1] => [s0 * 4 + s1 / 16]
  | _ => []

/-- Standard base64 decoding of a character sequence (what `fetch` on a
`data:application/epub+zip;base64,` URL performs in `readCachedFile`):
padding characters are dropped, the rest mapped to 6-bit groups and
reassembled into bytes. -/
def decodeB64 (cs : List Char) : List Nat :=
  decodeSextets ((cs.filter (fun c => c ≠ '=')).map decodeChar)

/-- `Filesystem.writeFile` at a path under `Directory.Data`: replaces the
entry at that path, creating it if absent. -/
def writeFile (cache : List (String × String)) (path data : String) :
    List (String × String) :=
  cache.filter (fun e => e.1 ≠ path) ++ [(path, data)]

/-- `LocalStorageService.cacheFile`: fetch the bytes at `fileUrl` (a
rejected fetch propagates out of the method), generate the path
`cache/<Date.now()>_<fileType>`, base64-encode the blob (the split on
`base64,` keeps exactly the encoded payload of the data URL) and write it
to the Blob Cache, returning the path. -/
def cacheFile (env : Env) (w : World) (fileUrl fileType : String) :
    Except Unit (String × World) :=
  match env.fetchBytes fileUrl with
  | none => .error ()
  | some bytes =>
    let path := "cache/" ++ toString env.nowMs ++ "_" ++ fileType
    .ok (path,
      { w with blobCache := writeFile w.blobCache path ⟨encodeB64 bytes⟩ })

/-- `LocalStorageService.readCachedFile`: `Filesystem.readFile` rejects on
a missing path (the NotFound condition); a present entry is a base64
string, decoded back to bytes through the data-URL fetch. -/
def readCachedFile (w : World) (path : String) : Except Unit (List Nat) :=
  match w.blobCache.find? (fun e => e.1 = path) with
  | none => .error ()
  | some entry => .ok (decodeB64 entry.2.data)

/-- Asset-population call sites of `processSupabaseBooks`: a successful
`cacheFile` is also logged in the instrumentation `writeLog` as
(book id, file type). -/
def cacheAsset (env : Env) (w : World) (bookId url fileType : String) :
    Except Unit (String × World) :=
  match cacheFile env w url fileType with
  | .error e => .error e
  | .ok (p, w1) =>
    .ok (p, { w1 with writeLog := w1.writeLog ++ [(bookId, fileType)] })

/-- Merged record built by `processSupabaseBooks` before asset
population: remote-owned fields spread from the remote row,
`is_manual = false`, a fresh `cache_expiry` of `Date.now()` plus
CACHE_DURATION, the three local paths taken over from the existing local
record through `localBook?.local_*_path || null`, and
`synced_with_supabase = true`. -/
def mergeRemote (env : Env) (book : SupabaseBook)
    (localBook : Option LocalBook) : LocalBook :=
  { toSupabaseBook := { book with synced_with_supabase := true },
    is_manual := false,
    cache_expiry := env.isoOfMs (env.nowMs + CACHE_DURATION),
    local_content_path :=
      jsOrNull (localBook.bind (fun l => l.local_content_path)),
    local_narration_path :=
      jsOrNull (localBook.bind (fun l => l.local_narration_path)),
    local_podcast_path :=
      jsOrNull (localBook.bind (fun l => l.local_podcast_path)) }

/-- Content population step: `if (!localBook?.local_content_path)` — the
guard is the falsiness of the original local path, i.e. the merged path
being `none` — cache `book.content_url` under file type `epub` and fill
the path in. A rejected fetch leaves the world as it stands and aborts
this book (the per-book catch). -/
def stepContent (env : Env) (w : World) (book : SupabaseBook)
    (b : LocalBook) : World × Except Unit LocalBook :=
  if b.local_content_path.isNone then
    match cacheAsset env w book.id book.content_url "epub" with
    | .error _ => (w, .error ())
    | .ok (p, w1) => (w1, .ok { b with local_content_path := some p })
  else (w, .ok b)

/-- Narration population step: guard
`book.narration_url && !localBook?.local_narration_path`, file type
`audio`. -/
def stepNarration (env : Env) (w : World) (book : SupabaseBook)
    (b : LocalBook) : World × Except Unit LocalBook :=
  if jsTruthy book.narration_url && b.local_narration_path.isNone then
    match cacheAsset env w book.id (book.narration_url.getD "") "audio" with
    | .error _ => (w, .error ())
    | .ok (p, w1) => (w1, .ok { b with local_narration_path := some p })
  else (w, .ok b)

/-- Podcast population step: guard
`book.podcast_url && !localBook?.local_podcast_path`, file type
`audio`. -/
def stepPodcast (env : Env) (w : World) (book : SupabaseBook)
    (b : LocalBook) : World × Except Unit LocalBook :=
  if jsTruthy book.podcast_url && b.local_podcast_path.isNone then
    match cacheAsset env w book.id (book.podcast_url.getD "") "audio" with
    | .error _ => (w, .error ())
    | .ok (p, w1) => (w1, .ok { b with local_podcast_path := some p })
  else (w, .ok b)

/-- Per-iteration body of the loop of
`BookService.processSupabaseBooks`: look the remote row up locally, build
the merged record, populate the three assets in order, save; any
rejection inside the try is caught and logged, so the book is skipped
(not saved, not pushed) while the world keeps the writes that already
happened. -/
def processBook (env : Env) (w : World) (book : SupabaseBook) :
    World × Option LocalBook :=
  let localBook := getBook w book.id
  let b0 := mergeRemote env book localBook
  match stepContent env w book b0 with
  | (w1, .error _) => (w1, none)
  | (w1, .ok b1) =>
    match stepNarration env w1 book b1 with
    | (w2, .error _) => (w2, none)
    | (w2, .ok b2) =>
      match stepPodcast env w2 book b2 with
      | (w3, .error _) => (w3, none)
      | (w3, .ok b3) => (saveBook w3 b3, some b3)

/-- `BookService.processSupabaseBooks`: fold the per-book body over the
remote rows, collecting the successfully processed records in order. -/
def processSupabaseBooks (env : Env) (w : World)
    (books : List SupabaseBook) : World × List LocalBook :=
  books.foldl
    (fun acc book =>
      let r := processBook env acc.1 book
      (r.1, acc.2 ++ r.2.toList))
    (w, [])

/-- Lexicographic strict order on character sequences: the JS relational
comparison of two strings (code-unit-wise; identical to character-wise on
the ASCII ISO-8601 timestamps compared here). -/
def charsLt : List Char → List Char → Bool
  | [], [] => false
  | [], _ :: _ => true
  | _ :: _, [] => false
  | a :: as, b :: bs =>
    if a < b then true else if b < a then false else charsLt as bs

/-- The JS expression `s < t` on strings. -/
def jsStrLt (s t : String) : Bool := charsLt s.data t.data

/-- Validity filter of `BookService.fetchBooks`:
`book.is_manual || (book.cache_expiry && book.cache_expiry > now)` with
`now = new Date().toISOString()` and the comparison the JS lexicographic
string order. -/
def validFilter (nowIso : String) (books : List LocalBook) :
    List LocalBook :=
  books.filter (fun b =>
    b.is_manual || (b.cache_expiry ≠ "" && jsStrLt nowIso b.cache_expiry))

/-- `BookService.fetchBooks`: read the local records, keep the valid
(manual or unexpired) ones; offline, return exactly those; online, ask
Supabase — a reported error falls back to the valid cached list —
otherwise process the remote rows and return them concatenated with the
valid manual records. The outer catch rethrows storage failures, none of
which the engine model produces, so the promise resolves. -/
def fetchBooks (env : Env) (w : World) :
    Except Unit (World × List LocalBook) :=
  match getBooks w with
  | .error e => .error e
  | .ok localBooks =>
    let nowIso := env.isoOfMs env.nowMs
    let validBooks := validFilter nowIso localBooks
    if !env.online then .ok (w, validBooks)
    else
      match env.remoteBooks with
      | .error _ => .ok (w, validBooks)
      | .ok supabaseBooks =>
        let r := processSupabaseBooks env w supabaseBooks
        let manualBooks := validBooks.filter (fun b => b.is_manual)
        .ok (r.1, r.2 ++ manualBooks)

/-- `BookService.updateBookProgress`: a found record gets
`read_progress` and `updated_at` written to the Record Store first; then,
only if the (unchanged) `synced_with_supabase` flag is set and the
browser is online, a Supabase update is issued whose reported error is
only logged — never thrown, never rolled back. A missing record skips
both writes. The promise resolves in every modelled case. -/
def updateBookProgress (env : Env) (w : World) (bookId : String)
    (progress : Int) : Except Unit Unit × World :=
  match getBook w bookId with
  | some localBook =>
    let updated : LocalBook :=
      { localBook with read_progress := progress,
                       updated_at := env.isoOfMs env.nowMs }
    let w1 := saveBook w updated
    if updated.synced_with_supabase && env.online then
      if env.remoteUpdateError then (.ok (), w1)
      else (.ok (), { w1 with remoteUpdates := w1.remoteUpdates ++ [(bookId, progress)] })
    else (.ok (), w1)
  | none => (.ok (), w)

/-- Fresh world: storage engine initialized, no rows, no cached blobs. -/
def initWorld : World :=
  { sqliteInit := true, books := [], blobCache := [], writeLog := [],
    remoteUpdates := [] }

/-- A sequence of `saveBook` calls, in order. -/
def runSaves (w : World) (ops : List LocalBook) : World :=
  ops.foldl saveBook w

/-- Last record carrying a given id in a sequence of saves. -/
def lastSaved (ops : List LocalBook) (id : String) : Option LocalBook :=
  (ops.filter (fun b => b.id = id)).getLast?

/-- Concrete remote row used by witnesses. -/
def sampleRemote : SupabaseBook :=
  { id := "b1", title := "T", author := "A", content_url := "u",
    cover_image := "c", narration_url := none, podcast_url := none,
    content_category := "cat", current_page := 0, total_pages := 10,
    last_read := none, narration_status := none, podcast_status := none,
    highlighted_words := [], difficult_words := [], vocab_mastery := none,
    read_progress := 0, audio_progress := none, book_language := "zh",
    is_favorite := false, is_offline := false, synced_with_supabase := true,
    is_crafted := false, created_at := "2026-01-01T00:00:00.000Z",
    updated_at := "2026-01-01T00:00:00.000Z" }

/-- Concrete non-manual local record used by witnesses. -/
def sampleBook : LocalBook :=
  { toSupabaseBook := sampleRemote, is_manual := false,
    cache_expiry := "2026-02-01T00:00:00.000Z",
    local_content_path := none, local_narration_path := none,
    local_podcast_path := none }

/-- Concrete manual record with a cached content blob, used by witnesses
and failing inputs. -/
def manualBook : LocalBook :=
  { toSupabaseBook :=
      { sampleRemote with id := "m1", synced_with_supabase := false },
    is_manual := true, cache_expiry := "2026-02-01T00:00:00.000Z",
    local_content_path := some "cache/1_epub",
    local_narration_path := none, local_podcast_path := none }

/-- The 6-bit groups of a byte sequence, three bytes to four groups with
a short trailing group: the numeric content of `encodeB64` before the
alphabet mapping (proof scaffolding for the round-trip argument). -/
def rawSextets : List Nat → List Nat
  | [] => []
  | [a] => [a / 4, a % 4 * 16]
  | [a, b] => [a / 4, a % 4 * 16 + b / 16, b % 16 * 4]
  | a :: b :: c :: rest =>
    a / 4 :: (a % 4 * 16 + b / 16) :: (b % 16 * 4 + c / 64) :: c % 64 ::
    rawSextets rest

/-- Record written by `updateBookProgress`: the found record with the new
`read_progress` and a fresh `updated_at`. -/
def progressUpdated (env : Env) (lb : LocalBook) (p : Int) : LocalBook :=
  { lb with read_progress := p, updated_at := env.isoOfMs env.nowMs }

/-- Rows whose primary key was filtered away are invisible to a lookup of
that key. -/
theorem findRow_filter_ne (l : List LocalBook) (id : String) :
    findRow (l.filter (fun x => x.id ≠ id)) id = none := by
  rw [findRow, List.find?_eq_none]
  intro x hx
  have h := (List.mem_filter.mp hx).2
  simp only [decide_eq_true_eq] at h ⊢
  exact h

/-- Lookup of the key just upserted yields the upserted row. -/
theorem findRow_upsertRow_self (l : List LocalBook) (b : LocalBook) :
    findRow (upsertRow l b) b.id = some b := by
  rw [upsertRow, findRow, List.find?_append]
  have h1 := findRow_filter_ne l b.id
  rw [findRow] at h1
  rw [h1]
  simp [List.find?]

/-- Upserting one key leaves lookups of any other key unchanged. -/
theorem findRow_upsertRow_ne (l : List LocalBook) (b : LocalBook)
    (id : String) (h : id ≠ b.id) :
    findRow (upsertRow l b) id = findRow l id := by
  rw [upsertRow, findRow, List.find?_append]
  have hb : List.find? (fun x => decide (x.id = id)) [b] = none := by
    have : b.id ≠ id := fun hh => h hh.symm
    simp [List.find?, this]
  rw [hb, List.find?_filter, findRow]
  have hpred : (fun (a : LocalBook) =>
      decide ((decide (a.id ≠ b.id)) = true ∧ (decide (a.id = id)) = true))
      = (fun (a : LocalBook) => decide (a.id = id)) := by
    funext a
    by_cases ha : a.id = id
    · have : a.id ≠ b.id := by rw [ha]; exact h
      simp [ha, this, h]
    · simp [ha]
  rw [hpred]
  cases List.find? (fun a => decide (a.id = id)) l <;> rfl

/-- C2: a non-manual record present in the Record Store makes `removeBook`
fail with the permission error (the not-found case is not an error at all,
so the two conditions are distinct), and the failed call leaves the whole
world — Record Store and Blob Cache — unchanged. -/
theorem c2_remove_non_manual_rejected (w : World) (id : String)
    (b : LocalBook) (hfind : getBook w id = some b)
    (hman : b.is_manual = false) :
    removeBook w id = (.error .cannotRemoveNonManual, w) := by
  simp only [removeBook, hfind, hman, Bool.false_eq_true, if_false]

/-- C2 witness: the sample non-manual record at a concrete world. -/
theorem c2_witness :
    removeBook ⟨true, [sampleBook], [], [], []⟩ "b1" =
      (.error .cannotRemoveNonManual, ⟨true, [sampleBook], [], [], []⟩) :=
  c2_remove_non_manual_rejected _ "b1" sampleBook (by decide) (by decide)

/-- C10: an id absent from the Record Store makes `removeBook` return
successfully as a silent no-op — no not-found error, no permission error,
and the world (Record Store and Blob Cache) is unchanged. -/
theorem c10_remove_missing_silent_noop (w : World) (id : String)
    (hnone : getBook w id = none) :
    removeBook w id = (.ok (), w) := by
  simp only [removeBook, hnone]

/-- C10 witness: removing an unknown id from the fresh world. -/
theorem c10_witness :
    removeBook initWorld "nope" = (.ok (), initWorld) :=
  c10_remove_missing_silent_noop initWorld "nope" (by decide)

/-- With an initialized engine, `deleteBook` never touches the Blob
Cache: the row is deleted first, so the subsequent `getBook` comes back
empty and `deleteBookFiles` is never reached. -/
theorem deleteBook_blobCache_unchanged (w : World) (id : String)
    (hw : w.sqliteInit = true) :
    (deleteBook w id).blobCache = w.blobCache := by
  simp only [deleteBook, hw, if_true]
  have h : ∀ (bks : List LocalBook) (bc wl : List (String × String))
      (ru : List (String × Int)),
      getBook ⟨true, bks.filter (fun b => b.id ≠ id), bc, wl, ru⟩ id =
        none := by
    intro bks bc wl ru
    simp only [getBook, sqliteSelectAll, if_true]
    exact findRow_filter_ne bks id
  rw [h]

/-- C1, evaluated at the failing input: `removeBook` on a manual record
with a cached content blob succeeds and deletes the Record Store row, but
the Blob Cache entry at the record's local_content_path survives —
`deleteBook` runs the DELETE before looking the record up, so the lookup
returns null and the file-deletion step never runs, contradicting the
claimed (and source-commented) behaviour. -/
theorem c1_manual_remove_leaves_blob_entry :
    removeBook ⟨true, [manualBook], [("cache/1_epub", "DATA")], [], []⟩
        "m1" =
      (.ok (), ⟨true, [], [("cache/1_epub", "DATA")], [], []⟩) := rfl

/-- C6 counterexample: listing after a failed engine initialization
returns exactly the same successful empty-list outcome as listing an
initialized store with no records — the two are indistinguishable. -/
theorem c6_counterexample_failed_init_indistinguishable :
    getBooks ⟨false, [sampleBook], [], [], []⟩ = getBooks initWorld ∧
    getBooks initWorld = .ok ([] : List LocalBook) := ⟨rfl, rfl⟩

/-- C6 (amended): after a failed initialization of the storage engine,
`getBooks` does not surface any distinct condition — optional chaining on
the null engine yields `undefined`, `transformQueryResult` maps it to
`[]`, and the call succeeds with the empty list, the same outcome as an
initialized empty library. -/
theorem c6_failed_init_returns_empty_ok (w : World)
    (hw : w.sqliteInit = false) : getBooks w = .ok [] := by
  simp [getBooks, sqliteSelectAll, transformQueryResult, hw]

/-- C6 witness: a failed-initialization world holding a (stale) row. -/
theorem c6_witness :
    getBooks ⟨false, [sampleBook], [], [], []⟩ = .ok ([] : List LocalBook) :=
  c6_failed_init_returns_empty_ok ⟨false, [sampleBook], [], [], []⟩ rfl

/-- Nothing is strictly below the empty string in the JS string order. -/
theorem jsStrLt_empty_right (s : String) : jsStrLt s "" = false := by
  rw [jsStrLt]
  cases s.data <;> rfl

/-- The truthiness guard in the validity filter is redundant: an empty
`cache_expiry` already fails the strict comparison. -/
theorem validFilter_eq_spec (nowIso : String) (books : List LocalBook) :
    validFilter nowIso books =
      books.filter (fun b => b.is_manual || jsStrLt nowIso b.cache_expiry) := by
  rw [validFilter]
  apply List.filter_congr
  intro b _
  by_cases hce : b.cache_expiry = ""
  · rw [hce, jsStrLt_empty_right]
    simp
  · simp [hce]

/-- C4: with connectivity unavailable, `fetchBooks` resolves with exactly
the Record Store rows that are manual or whose `cache_expiry` is strictly
later than the current time; expired non-manual rows are excluded from
the result but the Record Store (the whole world) is left unchanged. -/
theorem c4_offline_returns_valid_set (env : Env) (w : World)
    (hoff : env.online = false) (hw : w.sqliteInit = true) :
    fetchBooks env w =
      .ok (w, w.books.filter (fun b =>
        b.is_manual || jsStrLt (env.isoOfMs env.nowMs) b.cache_expiry)) := by
  simp only [fetchBooks, getBooks, sqliteSelectAll, hw, if_true,
    transformQueryResult, hoff, Bool.not_false, validFilter_eq_spec]

/-- C4 witness: a manual record plus a non-manual record expired relative
to the oracle clock, offline — only the manual record is returned and the
store keeps both rows. -/
theorem c4_witness :
    fetchBooks
        ⟨0, fun _ => "2026-03-01T00:00:00.000Z", false, fun _ => none,
          .ok [], false⟩
        ⟨true, [manualBook, sampleBook], [], [], []⟩ =
      .ok (⟨true, [manualBook, sampleBook], [], [], []⟩, [manualBook]) := by
  have h := c4_offline_returns_valid_set
    ⟨0, fun _ => "2026-03-01T00:00:00.000Z", false, fun _ => none,
      .ok [], false⟩
    ⟨true, [manualBook, sampleBook], [], [], []⟩ rfl rfl
  rw [h]
  rfl

/-- C7: online but with the remote catalog fetch reporting an error,
`fetchBooks` resolves (never rejects) with the valid cached set — the
same result the offline branch would have produced — and the world is
unchanged. -/
theorem c7_remote_error_falls_back (env : Env) (w : World)
    (hon : env.online = true) (herr : env.remoteBooks = .error ())
    (hw : w.sqliteInit = true) :
    fetchBooks env w =
      .ok (w, validFilter (env.isoOfMs env.nowMs) w.books) ∧
    fetchBooks env w =
      fetchBooks ⟨env.nowMs, env.isoOfMs, false, env.fetchBytes,
        env.remoteBooks, env.remoteUpdateError⟩ w := by
  constructor
  · simp only [fetchBooks, getBooks, sqliteSelectAll, hw, if_true,
      transformQueryResult, hon, Bool.not_true, if_false, herr, ite_self]
  · simp only [fetchBooks, getBooks, sqliteSelectAll, hw, if_true,
      transformQueryResult, hon, Bool.not_true, Bool.not_false, if_false,
      herr, ite_self]

/-- C7 witness: a concrete online world whose Supabase select fails. -/
theorem c7_witness :
    fetchBooks
        ⟨0, fun _ => "2026-01-15T00:00:00.000Z", true, fun _ => none,
          .error (), false⟩
        ⟨true, [sampleBook], [], [], []⟩ =
      .ok (⟨true, [sampleBook], [], [], []⟩, [sampleBook]) := by
  have h := c7_remote_error_falls_back
    ⟨0, fun _ => "2026-01-15T00:00:00.000Z", true, fun _ => none,
      .error (), false⟩
    ⟨true, [sampleBook], [], [], []⟩ rfl rfl rfl
  rw [h.1]
  rfl

/-- A record found by a point lookup carries the looked-up id. -/
theorem getBook_some_id (w : World) (id : String) (b : LocalBook)
    (h : getBook w id = some b) : b.id = id := by
  rw [getBook] at h
  cases hs : sqliteSelectAll w with
  | none => rw [hs] at h; cases h
  | some rows =>
    rw [hs] at h
    have := List.find?_some h
    simpa using this

/-- Point lookups only see the engine flag and the rows. -/
theorem getBook_congr (w1 w2 : World) (id : String)
    (h1 : w1.sqliteInit = w2.sqliteInit) (h2 : w1.books = w2.books) :
    getBook w1 id = getBook w2 id := by
  rw [getBook, getBook, sqliteSelectAll, sqliteSelectAll, h1, h2]

/-- Every call of `updateBookProgress` resolves: a missing record skips
the writes, and a Supabase error in the best-effort branch is only
logged. -/
theorem updateBookProgress_resolves (env : Env) (w : World) (bid : String)
    (p : Int) : (updateBookProgress env w bid p).1 = .ok () := by
  rw [updateBookProgress]
  cases getBook w bid with
  | none => rfl
  | some lb =>
    dsimp only
    split
    · split <;> rfl
    · rfl

/-- C8: `updateBookProgress` on a record present in the (initialized)
Record Store resolves successfully for every connectivity state and every
remote outcome — offline, or online with the Supabase update failing —
and the Record Store afterwards holds the record with the new
`read_progress` and the fresh `updated_at`; no remote failure rolls the
local write back. -/
theorem c8_progress_local_write_unconditional (env : Env) (w : World)
    (bid : String) (p : Int) (b : LocalBook) (hw : w.sqliteInit = true)
    (hfind : getBook w bid = some b) :
    (updateBookProgress env w bid p).1 = .ok () ∧
    getBook (updateBookProgress env w bid p).2 bid =
      some (progressUpdated env b p) := by
  have hbid : b.id = bid := getBook_some_id w bid b hfind
  refine ⟨updateBookProgress_resolves env w bid p, ?_⟩
  have hup : (progressUpdated env b p).id = bid := by
    simpa [progressUpdated] using hbid
  have hsave : getBook (saveBook w (progressUpdated env b p)) bid =
      some (progressUpdated env b p) := by
    rw [saveBook, if_pos hw, getBook, sqliteSelectAll]
    simp only [hw, if_true]
    rw [← hup]
    exact findRow_upsertRow_self w.books _
  have hsnd : getBook (updateBookProgress env w bid p).2 bid =
      getBook (saveBook w (progressUpdated env b p)) bid := by
    rw [updateBookProgress, hfind]
    dsimp only
    split
    · split
      · rfl
      · exact getBook_congr _ _ _ rfl rfl
    · rfl
  rw [hsnd]
  exact hsave

/-- C8 witness: updating progress to 42 offline on the sample synced
record. -/
theorem c8_witness :
    (updateBookProgress
        ⟨0, fun _ => "2026-03-01T00:00:00.000Z", false, fun _ => none,
          .ok [], false⟩
        ⟨true, [sampleBook], [], [], []⟩ "b1" 42).1 = .ok () ∧
    getBook (updateBookProgress
        ⟨0, fun _ => "2026-03-01T00:00:00.000Z", false, fun _ => none,
          .ok [], false⟩
        ⟨true, [sampleBook], [], [], []⟩ "b1" 42).2 "b1" =
      some (progressUpdated
        ⟨0, fun _ => "2026-03-01T00:00:00.000Z", false, fun _ => none,
          .ok [], false⟩ sampleBook 42) :=
  c8_progress_local_write_unconditional _ _ "b1" 42 sampleBook rfl
    (by decide)

/-- Saving a sequence of records over an initialized world folds the rows
with `upsertRow` and touches nothing else. -/
theorem runSaves_books (ops : List LocalBook) :
    ∀ (bks : List LocalBook) (bc wl : List (String × String))
      (ru : List (String × Int)),
      runSaves ⟨true, bks, bc, wl, ru⟩ ops =
        ⟨true, ops.foldl upsertRow bks, bc, wl, ru⟩ := by
  induction ops with
  | nil => intro bks bc wl ru; rfl
  | cons b ops ih =>
    intro bks bc wl ru
    simp only [runSaves, List.foldl_cons] at ih ⊢
    rw [show saveBook ⟨true, bks, bc, wl, ru⟩ b =
      ⟨true, upsertRow bks b, bc, wl, ru⟩ from rfl]
    exact ih (upsertRow bks b) bc wl ru

/-- After a fold of upserts, the rows carrying a given id are exactly the
last upserted row with that id, or the untouched initial rows with that
id if the id never occurs in the fold. -/
theorem foldl_upsert_filter (ops : List LocalBook) (id : String) :
    ∀ bs : List LocalBook,
      (ops.foldl upsertRow bs).filter (fun b => b.id = id) =
        if ops.any (fun b => b.id = id) then
          ((ops.filter (fun b => b.id = id)).getLast?).toList
        else bs.filter (fun b => b.id = id) := by
  induction ops with
  | nil => intro bs; simp
  | cons b ops ih =>
    intro bs
    rw [List.foldl_cons, ih (upsertRow bs b)]
    by_cases hb : b.id = id
    case pos =>
      have hbd : decide (b.id = id) = true := by simpa using hb
      by_cases hops : ops.any (fun x => x.id = id) = true
      case pos =>
        have hcons : (b :: ops).any (fun x => decide (x.id = id)) = true := by
          rw [List.any_cons, hops, Bool.or_true]
        rw [if_pos hops, if_pos hcons, List.filter_cons, hbd, if_pos rfl]
        have hfil : ops.filter (fun x => decide (x.id = id)) ≠ [] := by
          intro hnil
          rw [List.filter_eq_nil_iff] at hnil
          rw [List.any_eq_true] at hops
          obtain ⟨x, hx, hpx⟩ := hops
          exact hnil x hx hpx
        cases hc : ops.filter (fun x => decide (x.id = id)) with
        | nil => exact absurd hc hfil
        | cons y ys => rw [List.getLast?_cons_cons]
      case neg =>
        have hcons : (b :: ops).any (fun x => decide (x.id = id)) = true := by
          rw [List.any_cons, hbd, Bool.true_or]
        rw [if_neg hops, if_pos hcons, List.filter_cons, hbd, if_pos rfl]
        have hfl : ops.filter (fun x => decide (x.id = id)) = [] := by
          rw [List.filter_eq_nil_iff]
          intro a ha hpa
          exact hops (List.any_eq_true.mpr ⟨a, ha, hpa⟩)
        rw [hfl, upsertRow, List.filter_append, List.filter_filter]
        have h1 : bs.filter
            (fun a => decide (a.id = id) && decide (a.id ≠ b.id)) = [] := by
          rw [List.filter_eq_nil_iff]
          intro a ha
          by_cases h2 : a.id = id
          · simp [h2, hb]
          · simp [h2]
        rw [h1]
        simp [hbd]
    case neg =>
      have hbd : decide (b.id = id) = false := by simpa using hb
      have hcons : (b :: ops).any (fun x => decide (x.id = id)) =
          ops.any (fun x => decide (x.id = id)) := by
        rw [List.any_cons, hbd, Bool.false_or]
      rw [hcons, List.filter_cons, hbd]
      simp only [Bool.false_eq_true, if_false]
      by_cases hops : ops.any (fun x => x.id = id) = true
      · rw [if_pos hops, if_pos hops]
      · rw [if_neg hops, if_neg hops]
        rw [upsertRow, List.filter_append, List.filter_filter]
        have h1 : bs.filter
            (fun a => decide (a.id = id) && decide (a.id ≠ b.id)) =
            bs.filter (fun a => decide (a.id = id)) := by
          apply List.filter_congr
          intro a _
          by_cases h2 : a.id = id
          · have h3 : ¬id = b.id := fun hh => hb hh.symm
            simp [h2, h3]
          · simp [h2]
        rw [h1]
        simp [hbd]

/-- C5: after any sequence of `saveBook` upserts on an initially empty
Record Store, `getBooks` succeeds, and its rows carrying any given id are
exactly the last record saved with that id — one row per distinct id of
the sequence, equal to the last upserted value, and none for unseen
ids. -/
theorem c5_upsert_last_write_wins (ops : List LocalBook) (id : String) :
    (getBooks (runSaves initWorld ops)).map
        (fun rows => rows.filter (fun b => b.id = id)) =
      .ok ((lastSaved ops id).toList) := by
  rw [show initWorld = ⟨true, [], [], [], []⟩ from rfl,
    runSaves_books ops [] [] [] [], getBooks,
    show sqliteSelectAll ⟨true, ops.foldl upsertRow [], [], [], []⟩ =
      some (ops.foldl upsertRow []) from rfl, transformQueryResult]
  simp only [Except.map]
  rw [foldl_upsert_filter ops id []]
  by_cases hops : ops.any (fun b => b.id = id) = true
  · rw [if_pos hops]
    rfl
  · rw [if_neg hops]
    have hfl : ops.filter (fun b => decide (b.id = id)) = [] := by
      rw [List.filter_eq_nil_iff]
      intro a ha hpa
      exact hops (List.any_eq_true.mpr ⟨a, ha, hpa⟩)
    rw [lastSaved, hfl]
    rfl

/-- Decoding inverts encoding on every 6-bit group. -/
theorem decodeChar_encodeSextet_fin :
    ∀ n : Fin 64, decodeChar (encodeSextet n.val) = n.val := by decide

/-- No 6-bit group encodes to the padding character. -/
theorem encodeSextet_ne_pad_fin : ∀ n : Fin 64, encodeSextet n.val ≠ '=' := by
  decide

/-- Decoding inverts encoding on a 6-bit group, Nat form. -/
theorem decodeChar_encodeSextet (n : Nat) (h : n < 64) :
    decodeChar (encodeSextet n) = n :=
  decodeChar_encodeSextet_fin ⟨n, h⟩

/-- No 6-bit group encodes to the padding character, Nat form. -/
theorem encodeSextet_ne_pad (n : Nat) (h : n < 64) : encodeSextet n ≠ '=' :=
  encodeSextet_ne_pad_fin ⟨n, h⟩

/-- Dropping the padding of an encoded byte sequence and mapping the
characters back to numbers recovers the 6-bit groups. -/
theorem map_filter_encodeB64 :
    ∀ l : List Nat, (∀ x ∈ l, x < 256) →
      ((encodeB64 l).filter (fun c => c ≠ '=')).map decodeChar =
        rawSextets l
  | [], _ => rfl
  | [a], h => by
    have ha : a < 256 := h a (by simp)
    have h0 := encodeSextet_ne_pad (a / 4) (by omega)
    have h1 := encodeSextet_ne_pad (a % 4 * 16) (by omega)
    have d0 := decodeChar_encodeSextet (a / 4) (by omega)
    have d1 := decodeChar_encodeSextet (a % 4 * 16) (by omega)
    rw [encodeB64, rawSextets,
      List.filter_cons_of_pos (by simp [h0]),
      List.filter_cons_of_pos (by simp [h1]),
      List.filter_cons_of_neg (by simp),
      List.filter_cons_of_neg (by simp),
      List.filter_nil, List.map_cons, List.map_cons, List.map_nil, d0, d1]
  | [a, b], h => by
    have ha : a < 256 := h a (by simp)
    have hb : b < 256 := h b (by simp)
    have h0 := encodeSextet_ne_pad (a / 4) (by omega)
    have h1 := encodeSextet_ne_pad (a % 4 * 16 + b / 16) (by omega)
    have h2 := encodeSextet_ne_pad (b % 16 * 4) (by omega)
    have d0 := decodeChar_encodeSextet (a / 4) (by omega)
    have d1 := decodeChar_encodeSextet (a % 4 * 16 + b / 16) (by omega)
    have d2 := decodeChar_encodeSextet (b % 16 * 4) (by omega)
    rw [encodeB64, rawSextets,
      List.filter_cons_of_pos (by simp [h0]),
      List.filter_cons_of_pos (by simp [h1]),
      List.filter_cons_of_pos (by simp [h2]),
      List.filter_cons_of_neg (by simp),
      List.filter_nil, List.map_cons, List.map_cons, List.map_cons,
      List.map_nil, d0, d1, d2]
  | a :: b :: c :: rest, h => by
    have ha : a < 256 := h a (by simp)
    have hb : b < 256 := h b (by simp)
    have hc : c < 256 := h c (by simp)
    have ih := map_filter_encodeB64 rest (fun x hx => h x (by simp [hx]))
    have h0 := encodeSextet_ne_pad (a / 4) (by omega)
    have h1 := encodeSextet_ne_pad (a % 4 * 16 + b / 16) (by omega)
    have h2 := encodeSextet_ne_pad (b % 16 * 4 + c / 64) (by omega)
    have h3 := encodeSextet_ne_pad (c % 64) (by omega)
    have d0 := decodeChar_encodeSextet (a / 4) (by omega)
    have d1 := decodeChar_encodeSextet (a % 4 * 16 + b / 16) (by omega)
    have d2 := decodeChar_encodeSextet (b % 16 * 4 + c / 64) (by omega)
    have d3 := decodeChar_encodeSextet (c % 64) (by omega)
    rw [encodeB64, rawSextets,
      List.filter_cons_of_pos (by simp [h0]),
      List.filter_cons_of_pos (by simp [h1]),
      List.filter_cons_of_pos (by simp [h2]),
      List.filter_cons_of_pos (by simp [h3]),
      List.map_cons, List.map_cons, List.map_cons, List.map_cons,
      d0, d1, d2, d3, ih]

/-- Reassembling the 6-bit groups of a byte sequence gives the bytes
back. -/
theorem decodeSextets_rawSextets :
    ∀ l : List Nat, (∀ x ∈ l, x < 256) →
      decodeSextets (rawSextets l) = l
  | [], _ => rfl
  | [a], h => by
    have ha : a < 256 := h a (by simp)
    rw [rawSextets, decodeSextets]
    have e0 : a / 4 * 4 + a % 4 * 16 / 16 = a := by omega
    rw [e0]
  | [a, b], h => by
    have ha : a < 256 := h a (by simp)
    have hb : b < 256 := h b (by simp)
    rw [rawSextets, decodeSextets]
    have e0 : a / 4 * 4 + (a % 4 * 16 + b / 16) / 16 = a := by omega
    have e1 : (a % 4 * 16 + b / 16) % 16 * 16 + b % 16 * 4 / 4 = b := by
      omega
    rw [e0, e1]
  | a :: b :: c :: rest, h => by
    have ha : a < 256 := h a (by simp)
    have hb : b < 256 := h b (by simp)
    have hc : c < 256 := h c (by simp)
    have ih := decodeSextets_rawSextets rest (fun x hx => h x (by simp [hx]))
    rw [rawSextets, decodeSextets]
    have e0 : a / 4 * 4 + (a % 4 * 16 + b / 16) / 16 = a := by omega
    have e1 : (a % 4 * 16 + b / 16) % 16 * 16 +
        (b % 16 * 4 + c / 64) / 4 = b := by omega
    have e2 : (b % 16 * 4 + c / 64) % 4 * 64 + c % 64 = c := by omega
    rw [e0, e1, e2, ih]

/-- Base64 decoding inverts base64 encoding on every byte sequence. -/
theorem decodeB64_encodeB64 (l : List Nat) (h : ∀ x ∈ l, x < 256) :
    decodeB64 (encodeB64 l) = l := by
  rw [decodeB64, map_filter_encodeB64 l h, decodeSextets_rawSextets l h]

/-- The entry just written by `writeFile` is the one `find?` sees. -/
theorem find?_writeFile (cache : List (String × String))
    (path data : String) :
    (writeFile cache path data).find? (fun e => e.1 = path) =
      some (path, data) := by
  rw [writeFile, List.find?_append]
  have h1 : (cache.filter (fun e => e.1 ≠ path)).find?
      (fun e => e.1 = path) = none := by
    rw [List.find?_eq_none]
    intro x hx
    have := (List.mem_filter.mp hx).2
    simpa using this
  rw [h1]
  simp [List.find?]

/-- C9: the Blob Cache round trip — `readCachedFile` after `cacheFile` at
the returned path — reproduces byte for byte the content fetched from the
source url, through the base64 encoding on store and decoding on read. -/
theorem c9_blob_cache_roundtrip (env : Env) (w : World) (url tag : String)
    (bytes : List Nat) (hfetch : env.fetchBytes url = some bytes)
    (hbytes : ∀ x ∈ bytes, x < 256) :
    (cacheFile env w url tag).bind (fun r => readCachedFile r.2 r.1) =
      .ok bytes := by
  simp only [cacheFile, hfetch, Except.bind]
  rw [readCachedFile]
  rw [show ∀ w1 : World, ∀ bc, ({ w1 with blobCache := bc } : World).blobCache
    = bc from fun _ _ => rfl]
  rw [find?_writeFile]
  have hdec : decodeB64 (⟨encodeB64 bytes⟩ : String).data = bytes := by
    rw [show (⟨encodeB64 bytes⟩ : String).data = encodeB64 bytes from rfl]
    exact decodeB64_encodeB64 bytes hbytes
  exact congrArg Except.ok hdec

/-- C9 witness: a three-byte payload round-tripped through the cache. -/
theorem c9_witness :
    (cacheFile
        ⟨7, fun _ => "x", true, fun _ => some [104, 105, 33], .ok [],
          false⟩
        initWorld "u" "epub").bind (fun r => readCachedFile r.2 r.1) =
      .ok [104, 105, 33] :=
  c9_blob_cache_roundtrip _ initWorld "u" "epub" [104, 105, 33] rfl
    (by decide)

/-- A fetchable asset makes `cacheAsset` succeed: the table and engine
flag are untouched, one blob is written at the generated path, and one
(book id, file type) entry is logged. -/
theorem cacheAsset_ok (env : Env) (w : World) (bid url ft : String)
    (bytes : List Nat) (hf : env.fetchBytes url = some bytes) :
    cacheAsset env w bid url ft =
      .ok ("cache/" ++ toString env.nowMs ++ "_" ++ ft,
        ⟨w.sqliteInit, w.books,
          writeFile w.blobCache
            ("cache/" ++ toString env.nowMs ++ "_" ++ ft) ⟨encodeB64 bytes⟩,
          w.writeLog ++ [(bid, ft)], w.remoteUpdates⟩) := by
  rw [cacheAsset, cacheFile, hf]

/-- A failing fetch makes `cacheAsset` reject without touching the
world. -/
theorem cacheAsset_err (env : Env) (w : World) (bid url ft : String)
    (hf : env.fetchBytes url = none) :
    cacheAsset env w bid url ft = .error () := by
  rw [cacheAsset, cacheFile, hf]

/-- A merged record whose content path is already populated skips the
content population step entirely. -/
theorem stepContent_skip (env : Env) (w : World) (book : SupabaseBook)
    (b : LocalBook) (hb : b.local_content_path.isNone = false) :
    stepContent env w book b = (w, .ok b) := by
  rw [stepContent, if_neg (by simp [hb])]

/-- The narration step succeeds whenever a needed narration fetch cannot
fail: it only ever logs `audio` writes for this book, leaves the table
and engine flag alone, and changes no field of the record other than the
narration path. -/
theorem stepNarration_spec (env : Env) (w : World) (book : SupabaseBook)
    (b : LocalBook)
    (hsucc : jsTruthy book.narration_url = true →
      b.local_narration_path.isNone = true →
      env.fetchBytes (book.narration_url.getD "") ≠ none) :
    ∃ w1 b1, stepNarration env w book b = (w1, .ok b1) ∧
      w1.sqliteInit = w.sqliteInit ∧ w1.books = w.books ∧
      (∃ added, w1.writeLog = w.writeLog ++ added ∧
        ∀ e ∈ added, e = (book.id, "audio")) ∧
      b1.toSupabaseBook = b.toSupabaseBook ∧
      b1.is_manual = b.is_manual ∧ b1.cache_expiry = b.cache_expiry ∧
      b1.local_content_path = b.local_content_path ∧
      b1.local_podcast_path = b.local_podcast_path := by
  by_cases hg : (jsTruthy book.narration_url &&
      b.local_narration_path.isNone) = true
  · have hg' := hg
    rw [Bool.and_eq_true] at hg'
    cases hf : env.fetchBytes (book.narration_url.getD "") with
    | none => exact absurd hf (hsucc hg'.1 hg'.2)
    | some bytes =>
      have heq : stepNarration env w book b =
          (⟨w.sqliteInit, w.books,
              writeFile w.blobCache
                ("cache/" ++ toString env.nowMs ++ "_" ++ "audio")
                ⟨encodeB64 bytes⟩,
              w.writeLog ++ [(book.id, "audio")], w.remoteUpdates⟩,
            .ok { b with
                  local_narration_path :=
                    some ("cache/" ++ toString env.nowMs ++ "_" ++
                      "audio") }) := by
        rw [stepNarration, if_pos hg,
          cacheAsset_ok env w book.id (book.narration_url.getD "") "audio"
            bytes hf]
      exact ⟨_, _, heq, rfl, rfl, ⟨[(book.id, "audio")], rfl, by simp⟩,
        rfl, rfl, rfl, rfl, rfl⟩
  · have heq : stepNarration env w book b = (w, .ok b) := by
      rw [stepNarration, if_neg hg]
    exact ⟨_, _, heq, rfl, rfl, ⟨[], by simp, by simp⟩,
      rfl, rfl, rfl, rfl, rfl⟩

/-- The podcast step succeeds whenever a needed podcast fetch cannot
fail: it only ever logs `audio` writes for this book, leaves the table
and engine flag alone, and changes no field of the record other than the
podcast path. -/
theorem stepPodcast_spec (env : Env) (w : World) (book : SupabaseBook)
    (b : LocalBook)
    (hsucc : jsTruthy book.podcast_url = true →
      b.local_podcast_path.isNone = true →
      env.fetchBytes (book.podcast_url.getD "") ≠ none) :
    ∃ w1 b1, stepPodcast env w book b = (w1, .ok b1) ∧
      w1.sqliteInit = w.sqliteInit ∧ w1.books = w.books ∧
      (∃ added, w1.writeLog = w.writeLog ++ added ∧
        ∀ e ∈ added, e = (book.id, "audio")) ∧
      b1.toSupabaseBook = b.toSupabaseBook ∧
      b1.is_manual = b.is_manual ∧ b1.cache_expiry = b.cache_expiry ∧
      b1.local_content_path = b.local_content_path := by
  by_cases hg : (jsTruthy book.podcast_url &&
      b.local_podcast_path.isNone) = true
  · have hg' := hg
    rw [Bool.and_eq_true] at hg'
    cases hf : env.fetchBytes (book.podcast_url.getD "") with
    | none => exact absurd hf (hsucc hg'.1 hg'.2)
    | some bytes =>
      have heq : stepPodcast env w book b =
          (⟨w.sqliteInit, w.books,
              writeFile w.blobCache
                ("cache/" ++ toString env.nowMs ++ "_" ++ "audio")
                ⟨encodeB64 bytes⟩,
              w.writeLog ++ [(book.id, "audio")], w.remoteUpdates⟩,
            .ok { b with
                  local_podcast_path :=
                    some ("cache/" ++ toString env.nowMs ++ "_" ++
                      "audio") }) := by
        rw [stepPodcast, if_pos hg,
          cacheAsset_ok env w book.id (book.podcast_url.getD "") "audio"
            bytes hf]
      exact ⟨_, _, heq, rfl, rfl, ⟨[(book.id, "audio")], rfl, by simp⟩,
        rfl, rfl, rfl, rfl⟩
  · have heq : stepPodcast env w book b = (w, .ok b) := by
      rw [stepPodcast, if_neg hg]
    exact ⟨_, _, heq, rfl, rfl, ⟨[], by simp, by simp⟩,
      rfl, rfl, rfl, rfl⟩

/-- A count is unchanged by appending entries all different from the
counted key. -/
theorem count_append_ne (l added : List (String × String))
    (key : String × String) (h : ∀ e ∈ added, e ≠ key) :
    (l ++ added).count key = l.count key := by
  rw [List.count_append]
  have hz : added.count key = 0 := by
    rw [List.count_eq_zero]
    intro hmem
    exact h key hmem rfl
  rw [hz, Nat.add_zero]

/-- The per-book body on a remote row whose local record already carries
a truthy content path (and whose needed audio fetches cannot fail):
the book is merged, saved and returned; after it the engine is still
initialized, the saved record keeps the local content path, takes the
remote title and content url, has the non-manual synced provenance and
the fresh 7-day expiry, and not a single content (`epub`) Blob Cache
write was performed for this book. -/
theorem processBook_target (env : Env) (w : World) (book : SupabaseBook)
    (l : LocalBook) (p : String) (hw : w.sqliteInit = true)
    (hl : getBook w book.id = some l)
    (hp : l.local_content_path = some p) (hpne : p ≠ "")
    (hnarr : jsTruthy book.narration_url = true →
      (jsOrNull l.local_narration_path).isNone = true →
      env.fetchBytes (book.narration_url.getD "") ≠ none)
    (hpod : jsTruthy book.podcast_url = true →
      (jsOrNull l.local_podcast_path).isNone = true →
      env.fetchBytes (book.podcast_url.getD "") ≠ none) :
    ∃ w1 merged, processBook env w book = (w1, some merged) ∧
      w1.sqliteInit = true ∧
      getBook w1 book.id = some merged ∧
      merged.local_content_path = some p ∧
      merged.title = book.title ∧
      merged.content_url = book.content_url ∧
      merged.is_manual = false ∧
      merged.synced_with_supabase = true ∧
      merged.cache_expiry = env.isoOfMs (env.nowMs + CACHE_DURATION) ∧
      w1.writeLog.count (book.id, "epub") =
        w.writeLog.count (book.id, "epub") := by
  have hb0c : (mergeRemote env book (some l)).local_content_path =
      some p := by
    simp [mergeRemote, hp, jsOrNull, hpne]
  have hb0n : (mergeRemote env book (some l)).local_narration_path =
      jsOrNull l.local_narration_path := by
    simp [mergeRemote]
  have hb0p : (mergeRemote env book (some l)).local_podcast_path =
      jsOrNull l.local_podcast_path := by
    simp [mergeRemote]
  obtain ⟨w2, b1, hn, hn1, hn2, ⟨add1, hn3, hn4⟩, hnb, hnm, hne, hnc, hnp⟩ :=
    stepNarration_spec env w book (mergeRemote env book (some l))
      (by rw [hb0n]; exact hnarr)
  obtain ⟨w3, b2, hpo, hp1, hp2, ⟨add2, hp3, hp4⟩, hpb, hpm, hpe, hpc⟩ :=
    stepPodcast_spec env w2 book b1
      (by rw [show b1.local_podcast_path = jsOrNull l.local_podcast_path
        from hnp.trans hb0p]; exact hpod)
  have hrun : processBook env w book = (saveBook w3 b2, some b2) := by
    rw [processBook, hl]
    simp only [stepContent_skip env w book (mergeRemote env book (some l))
      (by rw [hb0c]; rfl), hn, hpo]
  have hb2sb : b2.toSupabaseBook =
      (mergeRemote env book (some l)).toSupabaseBook := hpb.trans hnb
  have hid : b2.id = book.id := by
    rw [show b2.id = b2.toSupabaseBook.id from rfl, hb2sb]
    rfl
  have hw3 : w3.sqliteInit = true := by
    rw [hp1, hn1]
    exact hw
  have hsave : getBook (saveBook w3 b2) book.id = some b2 := by
    rw [saveBook, if_pos hw3]
    simp only [getBook, sqliteSelectAll, hw3, if_true]
    rw [← hid]
    exact findRow_upsertRow_self w3.books b2
  refine ⟨saveBook w3 b2, b2, hrun, ?_, hsave, ?_, ?_, ?_, ?_, ?_, ?_, ?_⟩
  · rw [saveBook, if_pos hw3]
    exact hw3
  · rw [hpc, hnc, hb0c]
  · rw [show b2.title = b2.toSupabaseBook.title from rfl, hb2sb]
    rfl
  · rw [show b2.content_url = b2.toSupabaseBook.content_url from rfl,
      hb2sb]
    rfl
  · rw [hpm, hnm]
    rfl
  · rw [show b2.synced_with_supabase =
      b2.toSupabaseBook.synced_with_supabase from rfl, hb2sb]
    rfl
  · rw [hpe, hne]
    rfl
  · have hdiff : ("audio" : String) ≠ "epub" := by decide
    have hwl : (saveBook w3 b2).writeLog = w3.writeLog := by
      rw [saveBook]
      split <;> rfl
    rw [hwl, hp3, hn3]
    rw [count_append_ne _ add2 _ (fun e he hc =>
      hdiff (congrArg Prod.snd ((hp4 e he).symm.trans hc)))]
    rw [count_append_ne _ add1 _ (fun e he hc =>
      hdiff (congrArg Prod.snd ((hn4 e he).symm.trans hc)))]

/-- Worlds produced by an accepted `cacheAsset` call: same engine flag,
same table, exactly one new log entry. -/
theorem cacheAsset_ok_world (env : Env) (w : World) (bid url ft p : String)
    (w1 : World) (h : cacheAsset env w bid url ft = .ok (p, w1)) :
    w1.sqliteInit = w.sqliteInit ∧ w1.books = w.books ∧
    w1.writeLog = w.writeLog ++ [(bid, ft)] := by
  cases hf : env.fetchBytes url with
  | none =>
    rw [cacheAsset_err env w bid url ft hf] at h
    cases h
  | some bytes =>
    rw [cacheAsset_ok env w bid url ft bytes hf] at h
    injection h with hpair
    injection hpair with hp1 hp2
    rw [← hp2]
    exact ⟨rfl, rfl, rfl⟩

/-- Whatever the content step does, it keeps the engine flag and table
and only appends log entries for this book. -/
theorem stepContent_world (env : Env) (w : World) (book : SupabaseBook)
    (b : LocalBook) :
    ∃ added, (stepContent env w book b).1.sqliteInit = w.sqliteInit ∧
      (stepContent env w book b).1.books = w.books ∧
      (stepContent env w book b).1.writeLog = w.writeLog ++ added ∧
      ∀ e ∈ added, e.1 = book.id := by
  rw [stepContent]
  by_cases hg : b.local_content_path.isNone = true
  · rw [if_pos hg]
    cases hc : cacheAsset env w book.id book.content_url "epub" with
    | error e =>
      exact ⟨[], rfl, rfl, (List.append_nil _).symm, by simp⟩
    | ok pr =>
      obtain ⟨pp, ww⟩ := pr
      obtain ⟨h1, h2, h3⟩ := cacheAsset_ok_world env w book.id
        book.content_url "epub" pp ww hc
      exact ⟨[(book.id, "epub")], h1, h2, h3, by simp⟩
  · rw [if_neg hg]
    exact ⟨[], rfl, rfl, (List.append_nil _).symm, by simp⟩

/-- Whatever the narration step does, it keeps the engine flag and table
and only appends log entries for this book. -/
theorem stepNarration_world (env : Env) (w : World) (book : SupabaseBook)
    (b : LocalBook) :
    ∃ added, (stepNarration env w book b).1.sqliteInit = w.sqliteInit ∧
      (stepNarration env w book b).1.books = w.books ∧
      (stepNarration env w book b).1.writeLog = w.writeLog ++ added ∧
      ∀ e ∈ added, e.1 = book.id := by
  rw [stepNarration]
  by_cases hg : (jsTruthy book.narration_url &&
      b.local_narration_path.isNone) = true
  · rw [if_pos hg]
    cases hc : cacheAsset env w book.id (book.narration_url.getD "")
        "audio" with
    | error e =>
      exact ⟨[], rfl, rfl, (List.append_nil _).symm, by simp⟩
    | ok pr =>
      obtain ⟨pp, ww⟩ := pr
      obtain ⟨h1, h2, h3⟩ := cacheAsset_ok_world env w book.id
        (book.narration_url.getD "") "audio" pp ww hc
      exact ⟨[(book.id, "audio")], h1, h2, h3, by simp⟩
  · rw [if_neg hg]
    exact ⟨[], rfl, rfl, (List.append_nil _).symm, by simp⟩

/-- Whatever the podcast step does, it keeps the engine flag and table
and only appends log entries for this book. -/
theorem stepPodcast_world (env : Env) (w : World) (book : SupabaseBook)
    (b : LocalBook) :
    ∃ added, (stepPodcast env w book b).1.sqliteInit = w.sqliteInit ∧
      (stepPodcast env w book b).1.books = w.books ∧
      (stepPodcast env w book b).1.writeLog = w.writeLog ++ added ∧
      ∀ e ∈ added, e.1 = book.id := by
  rw [stepPodcast]
  by_cases hg : (jsTruthy book.podcast_url &&
      b.local_podcast_path.isNone) = true
  · rw [if_pos hg]
    cases hc : cacheAsset env w book.id (book.podcast_url.getD "")
        "audio" with
    | error e =>
      exact ⟨[], rfl, rfl, (List.append_nil _).symm, by simp⟩
    | ok pr =>
      obtain ⟨pp, ww⟩ := pr
      obtain ⟨h1, h2, h3⟩ := cacheAsset_ok_world env w book.id
        (book.podcast_url.getD "") "audio" pp ww hc
      exact ⟨[(book.id, "audio")], h1, h2, h3, by simp⟩
  · rw [if_neg hg]
    exact ⟨[], rfl, rfl, (List.append_nil _).symm, by simp⟩

/-- An accepted content step does not change the remote-owned part of
the record. -/
theorem stepContent_ok_sb (env : Env) (w : World) (book : SupabaseBook)
    (b : LocalBook) (w1 : World) (b1 : LocalBook)
    (h : stepContent env w book b = (w1, .ok b1)) :
    b1.toSupabaseBook = b.toSupabaseBook := by
  rw [stepContent] at h
  by_cases hg : b.local_content_path.isNone = true
  · rw [if_pos hg] at h
    cases hc : cacheAsset env w book.id book.content_url "epub" with
    | error e =>
      rw [hc] at h
      injection h with ha hb
      cases hb
    | ok pr =>
      obtain ⟨pp, ww⟩ := pr
      rw [hc] at h
      injection h with ha hb
      injection hb with hb'
      rw [← hb']
  · rw [if_neg hg] at h
    injection h with ha hb
    injection hb with hb'
    rw [← hb']

/-- An accepted narration step does not change the remote-owned part of
the record. -/
theorem stepNarration_ok_sb (env : Env) (w : World) (book : SupabaseBook)
    (b : LocalBook) (w1 : World) (b1 : LocalBook)
    (h : stepNarration env w book b = (w1, .ok b1)) :
    b1.toSupabaseBook = b.toSupabaseBook := by
  rw [stepNarration] at h
  by_cases hg : (jsTruthy book.narration_url &&
      b.local_narration_path.isNone) = true
  · rw [if_pos hg] at h
    cases hc : cacheAsset env w book.id (book.narration_url.getD "")
        "audio" with
    | error e =>
      rw [hc] at h
      injection h with ha hb
      cases hb
    | ok pr =>
      obtain ⟨pp, ww⟩ := pr
      rw [hc] at h
      injection h with ha hb
      injection hb with hb'
      rw [← hb']
  · rw [if_neg hg] at h
    injection h with ha hb
    injection hb with hb'
    rw [← hb']

/-- An accepted podcast step does not change the remote-owned part of
the record. -/
theorem stepPodcast_ok_sb (env : Env) (w : World) (book : SupabaseBook)
    (b : LocalBook) (w1 : World) (b1 : LocalBook)
    (h : stepPodcast env w book b = (w1, .ok b1)) :
    b1.toSupabaseBook = b.toSupabaseBook := by
  rw [stepPodcast] at h
  by_cases hg : (jsTruthy book.podcast_url &&
      b.local_podcast_path.isNone) = true
  · rw [if_pos hg] at h
    cases hc : cacheAsset env w book.id (book.podcast_url.getD "")
        "audio" with
    | error e =>
      rw [hc] at h
      injection h with ha hb
      cases hb
    | ok pr =>
      obtain ⟨pp, ww⟩ := pr
      rw [hc] at h
      injection h with ha hb
      injection hb with hb'
      rw [← hb']
  · rw [if_neg hg] at h
    injection h with ha hb
    injection hb with hb'
    rw [← hb']

/-- Target-id state is untouched by a world evolution that keeps the
table, keeps the engine flag and only logs entries of another book. -/
theorem preserves_of_evol (w w1 : World) (tid bid : String)
    (hne : bid ≠ tid) (h1 : w1.sqliteInit = w.sqliteInit)
    (h2 : w1.books = w.books) (added : List (String × String))
    (h3 : w1.writeLog = w.writeLog ++ added)
    (h4 : ∀ e ∈ added, e.1 = bid) :
    getBook w1 tid = getBook w tid ∧ w1.sqliteInit = w.sqliteInit ∧
    ∀ ft, w1.writeLog.count (tid, ft) = w.writeLog.count (tid, ft) := by
  refine ⟨getBook_congr w1 w tid h1 h2, h1, fun ft => ?_⟩
  rw [h3]
  exact count_append_ne _ _ _ (fun e he hc =>
    hne ((h4 e he).symm.trans (congrArg Prod.fst hc)))

/-- Preservation of target-id state composes. -/
theorem preserves_trans {w w1 w2 : World} {tid : String}
    (h : getBook w1 tid = getBook w tid ∧ w1.sqliteInit = w.sqliteInit ∧
      ∀ ft, w1.writeLog.count (tid, ft) = w.writeLog.count (tid, ft))
    (h' : getBook w2 tid = getBook w1 tid ∧ w2.sqliteInit = w1.sqliteInit ∧
      ∀ ft, w2.writeLog.count (tid, ft) = w1.writeLog.count (tid, ft)) :
    getBook w2 tid = getBook w tid ∧ w2.sqliteInit = w.sqliteInit ∧
    ∀ ft, w2.writeLog.count (tid, ft) = w.writeLog.count (tid, ft) :=
  ⟨h'.1.trans h.1, h'.2.1.trans h.2.1,
    fun ft => (h'.2.2 ft).trans (h.2.2 ft)⟩

/-- Saving a record of another id preserves target-id lookups, the
engine flag and the write log. -/
theorem saveBook_preserves_other (w : World) (b : LocalBook)
    (tid : String) (hne : b.id ≠ tid) :
    getBook (saveBook w b) tid = getBook w tid ∧
    (saveBook w b).sqliteInit = w.sqliteInit ∧
    ∀ ft, (saveBook w b).writeLog.count (tid, ft) =
      w.writeLog.count (tid, ft) := by
  rw [saveBook]
  by_cases hsi : w.sqliteInit = true
  · rw [if_pos hsi]
    refine ⟨?_, rfl, fun ft => rfl⟩
    simp only [getBook, sqliteSelectAll, hsi, if_true]
    exact findRow_upsertRow_ne w.books b tid (fun hh => hne hh.symm)
  · rw [if_neg hsi]
    exact ⟨rfl, rfl, fun ft => rfl⟩

/-- Processing a remote row of another id preserves target-id lookups,
the engine flag and the target-id write-log counts. -/
theorem processBook_preserves (env : Env) (w : World)
    (book : SupabaseBook) (tid : String) (hne : book.id ≠ tid) :
    getBook (processBook env w book).1 tid = getBook w tid ∧
    (processBook env w book).1.sqliteInit = w.sqliteInit ∧
    ∀ ft : String, (processBook env w book).1.writeLog.count (tid, ft) =
      w.writeLog.count (tid, ft) := by
  obtain ⟨a1, c1, c2, c3, c4⟩ := stepContent_world env w book
    (mergeRemote env book (getBook w book.id))
  rw [processBook]
  cases h1 : stepContent env w book
      (mergeRemote env book (getBook w book.id)) with
  | mk w1 r1 =>
    rw [h1] at c1 c2 c3
    have pres1 := preserves_of_evol w w1 tid book.id hne c1 c2 a1 c3 c4
    cases r1 with
    | error e => exact pres1
    | ok b1 =>
      dsimp only
      obtain ⟨a2, n1, n2, n3, n4⟩ := stepNarration_world env w1 book b1
      cases h2 : stepNarration env w1 book b1 with
      | mk w2 r2 =>
        rw [h2] at n1 n2 n3
        have pres2 := preserves_trans pres1
          (preserves_of_evol w1 w2 tid book.id hne n1 n2 a2 n3 n4)
        cases r2 with
        | error e => exact pres2
        | ok b2 =>
          dsimp only
          obtain ⟨a3, q1, q2, q3, q4⟩ := stepPodcast_world env w2 book b2
          cases h3 : stepPodcast env w2 book b2 with
          | mk w3 r3 =>
            rw [h3] at q1 q2 q3
            have pres3 := preserves_trans pres2
              (preserves_of_evol w2 w3 tid book.id hne q1 q2 a3 q3 q4)
            cases r3 with
            | error e => exact pres3
            | ok b3 =>
              dsimp only
              have hsb : b3.toSupabaseBook =
                  (mergeRemote env book (getBook w book.id)).toSupabaseBook :=
                (stepPodcast_ok_sb env w2 book b2 w3 b3 h3).trans
                  ((stepNarration_ok_sb env w1 book b1 w2 b2 h2).trans
                    (stepContent_ok_sb env w book
                      (mergeRemote env book (getBook w book.id)) w1 b1 h1))
              have hid : b3.id = book.id := by
                rw [show b3.id = b3.toSupabaseBook.id from rfl, hsb]
                rfl
              exact preserves_trans pres3
                (saveBook_preserves_other w3 b3 tid (hid.symm ▸ hne))

/-- The world component of the reconciliation fold does not depend on
the accumulated record list. -/
theorem processFold_world (env : Env) :
    ∀ (bs : List SupabaseBook) (w : World) (acc : List LocalBook),
      (bs.foldl (fun a book =>
        let r := processBook env a.1 book
        (r.1, a.2 ++ r.2.toList)) (w, acc)).1 =
      bs.foldl (fun ww book => (processBook env ww book).1) w := by
  intro bs
  induction bs with
  | nil => intro w acc; rfl
  | cons b bs ih =>
    intro w acc
    rw [List.foldl_cons, List.foldl_cons]
    exact ih (processBook env w b).1 (acc ++ (processBook env w b).2.toList)

/-- Folding the per-book body over rows of other ids preserves
target-id lookups, the engine flag and target-id write-log counts. -/
theorem worldFold_preserves (env : Env) (tid : String) :
    ∀ (bs : List SupabaseBook) (w : World),
      (∀ x ∈ bs, x.id ≠ tid) →
      getBook (bs.foldl (fun ww book => (processBook env ww book).1) w)
        tid = getBook w tid ∧
      (bs.foldl (fun ww book => (processBook env ww book).1) w).sqliteInit
        = w.sqliteInit ∧
      ∀ ft,
        (bs.foldl (fun ww book => (processBook env ww book).1)
          w).writeLog.count (tid, ft) = w.writeLog.count (tid, ft) := by
  intro bs
  induction bs with
  | nil => intro w h; exact ⟨rfl, rfl, fun ft => rfl⟩
  | cons b bs ih =>
    intro w h
    rw [List.foldl_cons]
    exact preserves_trans
      (processBook_preserves env w b tid (h b (by simp)))
      (ih (processBook env w b).1 (fun x hx => h x (by simp [hx])))

/-- C3 (amended): for a remote row matching an existing local record with
a non-null, non-empty `local_content_path` (and whose needed audio
fetches cannot fail, the remote catalog carrying no duplicate ids),
`fetchBooks` resolves and afterwards the persisted merged record keeps
that `local_content_path` unchanged — with zero additional content
(`epub`) Blob Cache writes for that book — takes the remote `title` and
`content_url`, and has `is_manual = false`,
`synced_with_supabase = true` and `cache_expiry` of the merge time plus
seven days. -/
theorem c3_merge_preserves_truthy_content_path (env : Env) (w : World)
    (rbooks : List SupabaseBook) (book : SupabaseBook) (l : LocalBook)
    (p : String) (hon : env.online = true)
    (hrem : env.remoteBooks = .ok rbooks) (hmem : book ∈ rbooks)
    (hnodup : (rbooks.map (fun x => x.id)).Nodup)
    (hw : w.sqliteInit = true) (hl : getBook w book.id = some l)
    (hp : l.local_content_path = some p) (hpne : p ≠ "")
    (hnarr : jsTruthy book.narration_url = true →
      (jsOrNull l.local_narration_path).isNone = true →
      env.fetchBytes (book.narration_url.getD "") ≠ none)
    (hpod : jsTruthy book.podcast_url = true →
      (jsOrNull l.local_podcast_path).isNone = true →
      env.fetchBytes (book.podcast_url.getD "") ≠ none) :
    ∃ w1 res merged, fetchBooks env w = .ok (w1, res) ∧
      getBook w1 book.id = some merged ∧
      merged.local_content_path = some p ∧
      merged.title = book.title ∧
      merged.content_url = book.content_url ∧
      merged.is_manual = false ∧
      merged.synced_with_supabase = true ∧
      merged.cache_expiry = env.isoOfMs (env.nowMs + CACHE_DURATION) ∧
      w1.writeLog.count (book.id, "epub") =
        w.writeLog.count (book.id, "epub") := by
  obtain ⟨pre, post, rfl⟩ := List.append_of_mem hmem
  rw [List.map_append, List.map_cons] at hnodup
  have hdisj := (List.nodup_append.mp hnodup).2.2
  have hnodup2 := (List.nodup_append.mp hnodup).2.1
  have hpre : ∀ x ∈ pre, x.id ≠ book.id := by
    intro x hx heq
    exact hdisj (List.mem_map_of_mem (fun y => y.id) hx)
      (by rw [heq]; exact List.mem_cons_self _ _)
  have hpost : ∀ x ∈ post, x.id ≠ book.id := by
    intro x hx heq
    exact (List.nodup_cons.mp hnodup2).1
      (by rw [← heq]; exact List.mem_map_of_mem (fun y => y.id) hx)
  have hfold : (processSupabaseBooks env w (pre ++ book :: post)).1 =
      post.foldl (fun ww bk => (processBook env ww bk).1)
        (processBook env
          (pre.foldl (fun ww bk => (processBook env ww bk).1) w) book).1 := by
    rw [processSupabaseBooks,
      processFold_world env (pre ++ book :: post) w [],
      List.foldl_append, List.foldl_cons]
  obtain ⟨pg, pi, pc⟩ := worldFold_preserves env book.id pre w hpre
  obtain ⟨wmid, merged, hrun, hmid_init, hmid_get, f1, f2, f3, f4, f5,
      f6, hmid_count⟩ :=
    processBook_target env
      (pre.foldl (fun ww bk => (processBook env ww bk).1) w) book l p
      (pi.trans hw) (pg.trans hl) hp hpne hnarr hpod
  have hfst : (processBook env
      (pre.foldl (fun ww bk => (processBook env ww bk).1) w) book).1 =
      wmid := by rw [hrun]
  obtain ⟨sg, si, sc⟩ := worldFold_preserves env book.id post
    (processBook env
      (pre.foldl (fun ww bk => (processBook env ww bk).1) w) book).1 hpost
  have hfb : fetchBooks env w = .ok
      ((processSupabaseBooks env w (pre ++ book :: post)).1,
        (processSupabaseBooks env w (pre ++ book :: post)).2 ++
          (validFilter (env.isoOfMs env.nowMs) w.books).filter
            (fun b => b.is_manual)) := by
    simp only [fetchBooks, getBooks, sqliteSelectAll, hw, if_true,
      transformQueryResult, hon, Bool.not_true, Bool.false_eq_true,
      if_false, hrem]
  refine ⟨_, _, merged, hfb, ?_, f1, f2, f3, f4, f5, f6, ?_⟩
  · rw [hfold]
    refine sg.trans ?_
    rw [hfst]
    exact hmid_get
  · rw [hfold]
    refine (sc "epub").trans ?_
    have h1 : (processBook env
        (pre.foldl (fun ww bk => (processBook env ww bk).1) w)
        book).1.writeLog.count (book.id, "epub") =
        wmid.writeLog.count (book.id, "epub") := by rw [hfst]
    exact h1.trans (hmid_count.trans (pc "epub"))

/-- C3 counterexample: a local record whose `local_content_path` is the
non-null empty string (a falsy JS value) is not preserved — the merge
collapses it to null, performs a fresh content (`epub`) Blob Cache write
and persists the newly generated cache path instead of the original
value, against the claim as stated for every non-null path. -/
theorem c3_counterexample_empty_string_path :
    (fetchBooks
        ⟨5, fun _ => "T", true, fun _ => some [1], .ok [sampleRemote],
          false⟩
        ⟨true, [{ sampleBook with local_content_path := some "" }], [],
          [], []⟩).map
      (fun r => ((getBook r.1 "b1").map (fun m => m.local_content_path),
        r.1.writeLog)) =
      .ok (some (some "cache/5_epub"), [("b1", "epub")]) := by rfl

/-- C3 witness: a one-row remote catalog over a local record with cached
content at `cache/x`. -/
theorem c3_witness :
    ∃ w1 res merged,
      fetchBooks
          ⟨5, fun _ => "T", true, fun _ => some [1], .ok [sampleRemote],
            false⟩
          ⟨true, [{ sampleBook with local_content_path := some "cache/x" }],
            [], [], []⟩ = .ok (w1, res) ∧
      getBook w1 "b1" = some merged ∧
      merged.local_content_path = some "cache/x" ∧
      merged.title = "T" ∧
      merged.content_url = "u" ∧
      merged.is_manual = false ∧
      merged.synced_with_supabase = true ∧
      merged.cache_expiry = "T" ∧
      w1.writeLog.count ("b1", "epub") = 0 :=
  c3_merge_preserves_truthy_content_path _ _ [sampleRemote] sampleRemote
    { sampleBook with local_content_path := some "cache/x" } "cache/x"
    rfl rfl (List.mem_cons_self _ _) (by decide) rfl (by decide) rfl
    (by decide) (fun h => absurd h (by decide))
    (fun h => absurd h (by decide))
